import Mathlib

/-
Verification of the esp-pbuf safe ownership layer (src/src/lib.rs,
src/src/raw.rs, src/src/sys.rs). The lwIP collaborator functions
re-exported by src/src/sys.rs are external to the repository; they are
modelled from the specification's collaborator contract as explicit
state-passing functions over a world `Sys` that records a heap of
segments, byte memory, an allocator oracle and a trace of external
calls.
-/

namespace EspPbuf

/-- One lwIP pbuf segment, as the safe layer sees it: a 16-bit length,
the payload start address, the next-link address (0 meaning null), and
the external reference count. Mirrors the fields of `sys::pbuf` read by
src/src/lib.rs (`raw.len`, `raw.payload`, `raw.next`, `raw.ref_`). -/
structure Pbuf where
  len : Nat
  payload : Nat
  next : Nat
  ref_ : Nat
deriving Repr, DecidableEq

/-- A record of one call to the external collaborator primitive. -/
inductive SysCall where
  | allocCall (layer ty len : Nat)
  | refCall (addr : Nat)
  | freeCall (addr : Nat)
  | removeHeaderCall (addr delta : Nat)
  | reallocCall (addr newLen : Nat)
deriving Repr, DecidableEq

/-- The world the embedded program runs in: the heap of segments by
address, flat byte memory, the oracle list of addresses the external
pool allocator will return (0 meaning null), the set of addresses whose
segments have been freed, and the trace of collaborator calls made. -/
structure Sys where
  heap : Nat → Pbuf
  mem : Nat → Nat
  allocResults : List Nat
  freed : List Nat
  trace : List SysCall

/-- Modelled from the spec: the external collaborator's
`allocate(layer_hint, length: unsigned-16, type_hint) -> address-or-null`
primitive (lwIP `pbuf_alloc`, re-exported by src/src/sys.rs but not part
of this repository). The oracle supplies the address the pool allocator
returns (0 meaning null); on success the fresh segment has the requested
length, its payload starting at the returned address, no chain link, and
reference count 1 (ownership taken by the caller, per spec section 4.4
step 3). -/
def pbuf_alloc (s : Sys) (layer ty n : Nat) : Nat × Sys :=
  let a := s.allocResults.headD 0
  let t := s.trace ++ [SysCall.allocCall layer ty n]
  if a = 0 then
    (0, { s with allocResults := s.allocResults.tail, trace := t })
  else
    (a, { s with
            allocResults := s.allocResults.tail, trace := t,
            heap := fun x => if x = a then ⟨n, a, 0, 1⟩ else s.heap x })

/-- Modelled from the spec: `increment_reference(address) -> void`
(lwIP `pbuf_ref`, external to this repository). Increments the
segment's reference count by one. -/
def pbuf_ref (s : Sys) (addr : Nat) : Sys :=
  let p := s.heap addr
  { s with
      trace := s.trace ++ [SysCall.refCall addr],
      heap := fun x => if x = addr then { p with ref_ := p.ref_ + 1 } else s.heap x }

/-- Modelled from the spec: `decrement_reference_and_maybe_free(address)`
(lwIP `pbuf_free`, external to this repository). Decrements the
segment's reference count by one and frees the segment exactly when the
count reaches zero. -/
def pbuf_free (s : Sys) (addr : Nat) : Sys :=
  let p := s.heap addr
  { s with
      trace := s.trace ++ [SysCall.freeCall addr],
      heap := fun x => if x = addr then { p with ref_ := p.ref_ - 1 } else s.heap x,
      freed := if p.ref_ ≤ 1 then addr :: s.freed else s.freed }

/-- Modelled from the spec: `advance_payload_start(address, delta_bytes)
-> status(0 = success)` (lwIP `pbuf_remove_header`, external to this
repository). On success it consumes `delta` bytes from the front of the
segment: the payload address advances by `delta` and the reported length
shrinks by `delta`. It fails (non-zero status) when `delta` exceeds the
segment's current length. -/
def pbuf_remove_header (s : Sys) (addr delta : Nat) : Nat × Sys :=
  let p := s.heap addr
  let s1 := { s with trace := s.trace ++ [SysCall.removeHeaderCall addr delta] }
  if delta ≤ p.len then
    (0, { s1 with
            heap := fun x =>
              if x = addr then { p with payload := p.payload + delta, len := p.len - delta }
              else s1.heap x })
  else (1, s1)

/-- Modelled from the spec: `shrink_reported_length(address, new_length:
unsigned-16) -> void` (lwIP `pbuf_realloc`, external to this
repository). Adjusts the reported length fields in place without
reallocating; never fails. -/
def pbuf_realloc (s : Sys) (addr newLen : Nat) : Sys :=
  let p := s.heap addr
  { s with
      trace := s.trace ++ [SysCall.reallocCall addr newLen],
      heap := fun x => if x = addr then { p with len := newLen } else s.heap x }

/-- `raw::PbufPtr`: an owned non-null pointer to a pbuf (src/src/raw.rs).
Modelled as the segment's address. -/
structure PbufPtr where
  addr : Nat
deriving Repr, DecidableEq

/-- Dereferencing a `PbufPtr`: the segment it points at in the world. -/
def PbufPtr.get (p : PbufPtr) (s : Sys) : Pbuf := s.heap p.addr

/-- `PbufPtr::into_raw` (src/src/raw.rs lines 44-48): consumes the
handle with `mem::forget` (so `Drop` never runs) and returns the
underlying pointer. The world is threaded through to make explicit that
no collaborator call occurs. -/
def PbufPtr.into_raw (s : Sys) (p : PbufPtr) : Nat × Sys := (p.addr, s)

/-- `impl Clone for PbufPtr` (src/src/raw.rs lines 77-81): duplicates
the handle via `PbufPtr::new_ref`, which calls `sys::pbuf_ref`. -/
def PbufPtr.clone (s : Sys) (p : PbufPtr) : PbufPtr × Sys :=
  (⟨p.addr⟩, pbuf_ref s p.addr)

/-- `impl Drop for PbufPtr` (src/src/raw.rs lines 83-87): releases the
handle's counted unit via `sys::pbuf_free`. -/
def PbufPtr.drop (s : Sys) (p : PbufPtr) : Sys := pbuf_free s p.addr

/-- `PbufRef`: shared, reference-counted, immutable access
(src/src/lib.rs). -/
structure PbufRef where
  ptr : PbufPtr
deriving Repr, DecidableEq

/-- `impl Clone` as derived through the `PbufPtr` field: cloning a
`PbufRef` clones the inner raw handle. -/
def PbufRef.clone (s : Sys) (r : PbufRef) : PbufRef × Sys :=
  let pc := PbufPtr.clone s r.ptr
  (⟨pc.1⟩, pc.2)

/-- `PbufMut`: uniquely owned, mutable access (src/src/lib.rs). -/
structure PbufMut where
  ptr : PbufPtr
deriving Repr, DecidableEq

/-- `PbufMut::try_from_ptr` (src/src/lib.rs lines 94-100): checks the
segment's reference count; if exactly 1 wraps the handle as `PbufMut`,
otherwise returns the same handle as a `PbufRef` in the error variant. -/
def PbufMut.try_from_ptr (s : Sys) (ptr : PbufPtr) : Except PbufRef PbufMut :=
  if (ptr.get s).ref_ = 1 then .ok ⟨ptr⟩ else .error ⟨ptr⟩

/-- `PbufUninit`: a freshly allocated, uninitialized pbuf
(src/src/lib.rs). -/
structure PbufUninit where
  ptr : PbufPtr
deriving Repr, DecidableEq

/-- `AllocatePbufError` (src/src/lib.rs lines 121-128). -/
inductive AllocatePbufError where
  | LengthLargerThanU16
  | AllocationFailed
deriving Repr, DecidableEq

/-- Outcome of an operation that can also abort via `assert!` panic. -/
inductive RunResult (α : Type) where
  | ok (value : α)
  | error (e : AllocatePbufError)
  | panicked
deriving Repr, DecidableEq

/-- `PbufUninit::allocate` (src/src/lib.rs lines 131-144):
`u16::try_from(length)` fails with `LengthLargerThanU16` when the
requested length exceeds 65535; then `sys::pbuf_alloc` is called and a
null return becomes `AllocationFailed`; otherwise the returned address
is wrapped via `PbufPtr::new` (no reference-count adjustment). -/
def PbufUninit.allocate (s : Sys) (layer ty n : Nat) :
    Except AllocatePbufError PbufUninit × Sys :=
  if 65535 < n then (.error .LengthLargerThanU16, s)
  else
    let r := pbuf_alloc s layer ty n
    if r.1 = 0 then (.error .AllocationFailed, r.2)
    else (.ok ⟨⟨r.1⟩⟩, r.2)

/-- Rust `pointer::align_offset` for byte pointers: the least
non-negative offset that makes `addr + offset` a multiple of `align`. -/
def alignOffset (addr align : Nat) : Nat := (align - addr % align) % align

/-- `PbufUninit::allocate_layout` (src/src/lib.rs lines 148-175): pads
the allocation size to `layout.size() + layout.align()`, allocates,
computes the payload adjustment with `align_offset`, asserts that
`pbuf_remove_header` succeeds (a non-zero status is an `assert!`
failure, modelled as `RunResult.panicked`), then shrinks the length to
`layout.size() as u16` (modelled as `size % 65536`) via `pbuf_realloc`. -/
def PbufUninit.allocate_layout (s : Sys) (layer ty size align : Nat) :
    RunResult PbufUninit × Sys :=
  let alloc_size := size + align
  let r := PbufUninit.allocate s layer ty alloc_size
  match r.1 with
  | .error e => (.error e, r.2)
  | .ok pbuf =>
    let adjust := alignOffset ((pbuf.ptr.get r.2).payload) align
    let r2 := pbuf_remove_header r.2 pbuf.ptr.addr adjust
    if r2.1 = 0 then
      (.ok pbuf, pbuf_realloc r2.2 pbuf.ptr.addr (size % 65536))
    else
      (.panicked, r2.2)

/-- `ptr::write_bytes(start, v, count)`: memory with `count` bytes of
value `v` written starting at address `start`. -/
def writeBytes (mem : Nat → Nat) (start v count : Nat) : Nat → Nat :=
  fun a => if start ≤ a ∧ a < start + count then v else mem a

/-- `ptr::copy(src, start, count)` from a Rust slice modelled as a list:
memory with the first `count` elements of `src` written starting at
address `start`. -/
def copyBytes (mem : Nat → Nat) (src : List Nat) (start count : Nat) : Nat → Nat :=
  fun a => if start ≤ a ∧ a < start + count then src.getD (a - start) 0 else mem a

/-- `PbufUninit::len` (src/src/lib.rs lines 184-186). -/
def PbufUninit.len (s : Sys) (u : PbufUninit) : Nat := (u.ptr.get s).len

/-- `PbufUninit::zeroed` (src/src/lib.rs lines 177-182): writes
`self.ptr.len()` zero bytes at the payload pointer, then
`assume_init()` yields a `PbufMut` over the same handle. -/
def PbufUninit.zeroed (s : Sys) (u : PbufUninit) : PbufMut × Sys :=
  let pb := u.ptr.get s
  (⟨u.ptr⟩, { s with mem := writeBytes s.mem pb.payload 0 pb.len })

/-- `PbufUninit::copied_from_slice` (src/src/lib.rs lines 190-196):
`assert!(slice.len() == self.len())` (mismatch panics), then
`ptr::copy` of `self.len()` bytes from the slice into the payload, then
`assume_init()`. -/
def PbufUninit.copied_from_slice (s : Sys) (u : PbufUninit) (slice : List Nat) :
    RunResult PbufMut × Sys :=
  if slice.length = PbufUninit.len s u then
    let pb := u.ptr.get s
    (.ok ⟨u.ptr⟩, { s with mem := copyBytes s.mem slice pb.payload pb.len })
  else (.panicked, s)

/-- `Pbuf::bytes` (src/src/lib.rs lines 49-51): the slice of exactly
`len` bytes starting at the payload pointer, read out of memory. -/
def Pbuf.bytes (s : Sys) (p : Pbuf) : List Nat :=
  (List.range p.len).map fun i => s.mem (p.payload + i)

/-- `Pbuf::bytes_mut` (src/src/lib.rs lines 53-55): the same region as
`Pbuf::bytes`, handed out mutably; its initial contents. -/
def Pbuf.bytes_mut (s : Sys) (p : Pbuf) : List Nat := Pbuf.bytes s p

/-- `Pbuf::next` (src/src/lib.rs lines 58-62): `NonNull::new(raw.next)`
mapped to a borrowed view of the following segment; `none` when the
next-link is null. -/
def Pbuf.nextBuf (s : Sys) (p : Pbuf) : Option Pbuf :=
  if p.next = 0 then none else some (s.heap p.next)

/-- A concrete world for witnesses: empty trace, zeroed memory, all
heap slots holding a segment with reference count 1, and the pool
allocator primed to return address 4. -/
def sysW : Sys :=
  { heap := fun _ => ⟨4, 100, 0, 1⟩
    mem := fun _ => 7
    allocResults := [4]
    freed := []
    trace := [] }

/-- A concrete world whose segments all have reference count 3. -/
def sysShared : Sys :=
  { heap := fun _ => ⟨4, 100, 0, 3⟩
    mem := fun _ => 7
    allocResults := [4]
    freed := []
    trace := [] }

/-- Helper: `align_offset` never exceeds the alignment. -/
theorem alignOffset_le (addr align : Nat) : alignOffset addr align ≤ align := by
  unfold alignOffset
  rcases Nat.eq_zero_or_pos align with rfl | h
  · simp
  · exact le_of_lt (Nat.mod_lt _ h)

/-- Helper: `align_offset` is strictly below a positive alignment. -/
theorem alignOffset_lt (addr align : Nat) (h : 0 < align) :
    alignOffset addr align < align :=
  Nat.mod_lt _ h

/-- Helper: advancing an address by its `align_offset` lands on a
multiple of the alignment. -/
theorem add_alignOffset_emod (addr align : Nat) (h : 0 < align) :
    (addr + alignOffset addr align) % align = 0 := by
  unfold alignOffset
  rcases Nat.eq_zero_or_pos (addr % align) with h0 | hpos
  · simp [h0, Nat.mod_self, Nat.add_mod, Nat.sub_zero]
  · have hlt : addr % align < align := Nat.mod_lt _ h
    have h1 : (align - addr % align) % align = align - addr % align :=
      Nat.mod_eq_of_lt (by omega)
    have hdiv := Nat.div_add_mod addr align
    have h2 : addr + (align - addr % align) = (addr / align + 1) * align := by
      have hm : (addr / align + 1) * align = align * (addr / align) + align := by ring
      rw [hm]; omega
    rw [h1, h2, Nat.mul_mod_left]

/-- Helper: on success, `PbufUninit::allocate` returns a handle on the
oracle's address, and the world gains exactly the fresh segment, a
consumed oracle entry, and one `alloc` trace event. -/
theorem allocate_ok (s : Sys) (layer ty n a : Nat) (hn : n ≤ 65535)
    (ha : s.allocResults.headD 0 = a) (ha0 : a ≠ 0) :
    PbufUninit.allocate s layer ty n =
      (.ok ⟨⟨a⟩⟩,
       { s with
           allocResults := s.allocResults.tail,
           trace := s.trace ++ [SysCall.allocCall layer ty n],
           heap := fun x => if x = a then ⟨n, a, 0, 1⟩ else s.heap x }) := by
  unfold PbufUninit.allocate pbuf_alloc
  rw [ha]
  simp [Nat.not_lt.2 hn, ha0]

/-- C1: `PbufMut::try_from_ptr` returns Unique Access exactly when the
segment's observed reference count equals 1, and otherwise returns the
same handle repackaged as Shared Access in the error variant; it never
fails outright and never yields Unique Access when the count differs
from 1. -/
theorem try_from_ptr_spec (s : Sys) (ptr : PbufPtr) :
    ((s.heap ptr.addr).ref_ = 1 → PbufMut.try_from_ptr s ptr = .ok ⟨ptr⟩)
    ∧ ((s.heap ptr.addr).ref_ ≠ 1 → PbufMut.try_from_ptr s ptr = .error ⟨ptr⟩) := by
  constructor <;> intro h <;> simp [PbufMut.try_from_ptr, PbufPtr.get, h]

theorem try_from_ptr_spec_witness :
    PbufMut.try_from_ptr sysW ⟨4⟩ = .ok ⟨⟨4⟩⟩
    ∧ PbufMut.try_from_ptr sysShared ⟨4⟩ = .error ⟨⟨4⟩⟩ :=
  ⟨(try_from_ptr_spec sysW ⟨4⟩).1 rfl,
   (try_from_ptr_spec sysShared ⟨4⟩).2 (by decide)⟩

/-- C2: `PbufUninit::allocate` fails with `LengthLargerThanU16` exactly
when the requested length exceeds the 16-bit range, and then performs no
external allocation call (the world is untouched); when the external
allocator returns null it fails with `AllocationFailed`; otherwise it
succeeds, wrapping the returned address as a fresh handle whose
reference count is 1 with no increment call in the trace. -/
theorem allocate_spec (s : Sys) (layer ty n : Nat) :
    (65535 < n → PbufUninit.allocate s layer ty n = (.error .LengthLargerThanU16, s))
    ∧ (n ≤ 65535 → (PbufUninit.allocate s layer ty n).1 ≠ .error .LengthLargerThanU16)
    ∧ (n ≤ 65535 → s.allocResults.headD 0 = 0 →
        (PbufUninit.allocate s layer ty n).1 = .error .AllocationFailed)
    ∧ (∀ a, n ≤ 65535 → s.allocResults.headD 0 = a → a ≠ 0 →
        (PbufUninit.allocate s layer ty n).1 = .ok ⟨⟨a⟩⟩
        ∧ ((PbufUninit.allocate s layer ty n).2.heap a).ref_ = 1
        ∧ (PbufUninit.allocate s layer ty n).2.trace
            = s.trace ++ [SysCall.allocCall layer ty n]) := by
  refine ⟨?_, ?_, ?_, ?_⟩
  · intro h
    simp [PbufUninit.allocate, h]
  · intro hn
    simp only [PbufUninit.allocate, Nat.not_lt.2 hn, if_false]
    split <;> simp
  · intro hn h0
    unfold PbufUninit.allocate pbuf_alloc
    rw [h0]
    simp [Nat.not_lt.2 hn]
  · intro a hn ha ha0
    rw [allocate_ok s layer ty n a hn ha ha0]
    simp [ha0]

theorem allocate_spec_witness :
    PbufUninit.allocate sysW 0 0 70000 = (.error .LengthLargerThanU16, sysW)
    ∧ (PbufUninit.allocate sysW 0 0 64).1 = .ok ⟨⟨4⟩⟩ :=
  ⟨(allocate_spec sysW 0 0 70000).1 (by decide),
   ((allocate_spec sysW 0 0 64).2.2.2 4 (by decide) rfl (by decide)).1⟩

/-- C8: `Pbuf::bytes` and `Pbuf::bytes_mut` give a slice of exactly
`len` bytes starting at the payload pointer (byte `i` is the memory at
`payload + i`, so no byte of a chained segment is included), and
`Pbuf::next` returns a borrowed view of only the immediately following
segment, `none` when the next-link is null. -/
theorem bytes_next_spec (s : Sys) (p : Pbuf) :
    (Pbuf.bytes s p).length = p.len
    ∧ (∀ i, i < p.len → (Pbuf.bytes s p).getD i 0 = s.mem (p.payload + i))
    ∧ Pbuf.bytes_mut s p = Pbuf.bytes s p
    ∧ (p.next = 0 → Pbuf.nextBuf s p = none)
    ∧ (p.next ≠ 0 → Pbuf.nextBuf s p = some (s.heap p.next)) := by
  refine ⟨by simp [Pbuf.bytes], ?_, rfl, ?_, ?_⟩
  · intro i hi
    have hlen : i < (Pbuf.bytes s p).length := by simp [Pbuf.bytes, hi]
    rw [List.getD_eq_getElem _ _ hlen]
    simp [Pbuf.bytes]
  · intro h
    simp [Pbuf.nextBuf, h]
  · intro h
    simp [Pbuf.nextBuf, h]

theorem bytes_next_spec_witness :
    (Pbuf.bytes sysW ⟨4, 100, 0, 1⟩).length = 4
    ∧ (Pbuf.bytes sysW ⟨4, 100, 0, 1⟩).getD 2 0 = sysW.mem 102
    ∧ Pbuf.nextBuf sysW ⟨4, 100, 0, 1⟩ = none :=
  ⟨(bytes_next_spec sysW ⟨4, 100, 0, 1⟩).1,
   (bytes_next_spec sysW ⟨4, 100, 0, 1⟩).2.1 2 (by decide),
   (bytes_next_spec sysW ⟨4, 100, 0, 1⟩).2.2.2.1 rfl⟩

/-- C9: `PbufPtr::into_raw` returns the underlying pointer and leaves
the world entirely unchanged: no `pbuf_free` call is traced, no
reference count moves, nothing is freed — the counted unit transfers
intact to the caller instead of being released by the destructor. -/
theorem into_raw_spec (s : Sys) (p : PbufPtr) :
    (PbufPtr.into_raw s p).1 = p.addr
    ∧ (PbufPtr.into_raw s p).2.trace = s.trace
    ∧ (∀ a, (PbufPtr.into_raw s p).2.heap a = s.heap a)
    ∧ (PbufPtr.into_raw s p).2.freed = s.freed :=
  ⟨rfl, rfl, fun _ => rfl, rfl⟩

/-- C6: cloning a Shared Access adds exactly one `pbuf_ref` call and
raises the segment's reference count by exactly one, returning a handle
on the same address; dropping a raw handle adds exactly one `pbuf_free`
call and lowers the count by exactly one, the segment becoming freed
exactly when the count reaches zero. -/
theorem clone_drop_refcount (s : Sys) (r : PbufRef) :
    (((PbufRef.clone s r).2.heap r.ptr.addr).ref_ = (s.heap r.ptr.addr).ref_ + 1)
    ∧ ((PbufRef.clone s r).2.trace = s.trace ++ [SysCall.refCall r.ptr.addr])
    ∧ ((PbufRef.clone s r).1.ptr = r.ptr)
    ∧ (((PbufPtr.drop s r.ptr).heap r.ptr.addr).ref_ = (s.heap r.ptr.addr).ref_ - 1)
    ∧ ((PbufPtr.drop s r.ptr).trace = s.trace ++ [SysCall.freeCall r.ptr.addr])
    ∧ (0 < (s.heap r.ptr.addr).ref_ →
        (r.ptr.addr ∈ (PbufPtr.drop s r.ptr).freed ↔
          (s.heap r.ptr.addr).ref_ = 1 ∨ r.ptr.addr ∈ s.freed)) := by
  refine ⟨?_, rfl, rfl, ?_, rfl, ?_⟩
  · simp [PbufRef.clone, PbufPtr.clone, pbuf_ref]
  · simp [PbufPtr.drop, pbuf_free]
  · intro hpos
    simp only [PbufPtr.drop, pbuf_free]
    split
    · constructor
      · intro h
        rcases List.mem_cons.1 h with h | h
        · exact Or.inl (by omega)
        · exact Or.inr h
      · intro _
        exact List.mem_cons_self _ _
    · constructor
      · intro h
        exact Or.inr h
      · intro h
        rcases h with h | h
        · omega
        · exact h

theorem clone_drop_refcount_witness :
    (4 ∈ (PbufPtr.drop sysW ⟨4⟩).freed ↔ (sysW.heap 4).ref_ = 1 ∨ 4 ∈ sysW.freed) :=
  (clone_drop_refcount sysW ⟨⟨4⟩⟩).2.2.2.2.2 (by decide)

/-- Helper: when the inner `allocate` fails, `allocate_layout`
propagates the same recoverable error. -/
theorem allocate_layout_error (s : Sys) (layer ty size align : Nat)
    (e : AllocatePbufError)
    (h : (PbufUninit.allocate s layer ty (size + align)).1 = .error e) :
    (PbufUninit.allocate_layout s layer ty size align).1 = .error e := by
  simp only [PbufUninit.allocate_layout]
  rw [h]

/-- Helper: full success-state computation of `allocate_layout`: the
result handle, the final segment at the allocated address, and the
collaborator-call trace. -/
theorem allocate_layout_ok (s : Sys) (layer ty size align a : Nat)
    (hsz : size + align ≤ 65535) (ha : s.allocResults.headD 0 = a) (ha0 : a ≠ 0) :
    (PbufUninit.allocate_layout s layer ty size align).1 = .ok ⟨⟨a⟩⟩
    ∧ (PbufUninit.allocate_layout s layer ty size align).2.heap a
        = ⟨size % 65536, a + alignOffset a align, 0, 1⟩
    ∧ (PbufUninit.allocate_layout s layer ty size align).2.trace
        = s.trace ++ [SysCall.allocCall layer ty (size + align),
                      SysCall.removeHeaderCall a (alignOffset a align),
                      SysCall.reallocCall a (size % 65536)] := by
  have hadj : alignOffset a align ≤ size + align :=
    le_trans (alignOffset_le a align) (Nat.le_add_left _ _)
  simp only [PbufUninit.allocate_layout]
  rw [allocate_ok s layer ty (size + align) a hsz ha ha0]
  simp [pbuf_remove_header, pbuf_realloc, PbufPtr.get, hadj]

/-- C3: for any size and power-of-two alignment with `size + align`
within the 16-bit range and the external allocator succeeding,
`allocate_layout` requests the padded size `size + align` from the
allocator, and returns an allocation whose payload address is a
multiple of the alignment and whose length is exactly `size`, whatever
the alignment of the base address the allocator returned. -/
theorem allocate_layout_aligned (s : Sys) (layer ty size align a : Nat)
    (hpow : ∃ k, align = 2 ^ k) (hsz : size + align ≤ 65535)
    (ha : s.allocResults.headD 0 = a) (ha0 : a ≠ 0) :
    (PbufUninit.allocate_layout s layer ty size align).1 = .ok ⟨⟨a⟩⟩
    ∧ SysCall.allocCall layer ty (size + align)
        ∈ (PbufUninit.allocate_layout s layer ty size align).2.trace
    ∧ ((PbufUninit.allocate_layout s layer ty size align).2.heap a).payload % align = 0
    ∧ ((PbufUninit.allocate_layout s layer ty size align).2.heap a).len = size := by
  have hal : 0 < align := by
    obtain ⟨k, rfl⟩ := hpow
    exact pow_pos (by norm_num) k
  obtain ⟨h1, h2, h3⟩ := allocate_layout_ok s layer ty size align a hsz ha ha0
  refine ⟨h1, ?_, ?_, ?_⟩
  · rw [h3]; simp
  · rw [h2]; exact add_alignOffset_emod a align hal
  · rw [h2]; exact Nat.mod_eq_of_lt (by omega)

theorem allocate_layout_aligned_witness :
    (PbufUninit.allocate_layout sysW 0 0 24 8).1 = .ok ⟨⟨4⟩⟩
    ∧ ((PbufUninit.allocate_layout sysW 0 0 24 8).2.heap 4).payload % 8 = 0
    ∧ ((PbufUninit.allocate_layout sysW 0 0 24 8).2.heap 4).len = 24 :=
  ⟨(allocate_layout_aligned sysW 0 0 24 8 4 ⟨3, rfl⟩ (by decide) rfl (by decide)).1,
   (allocate_layout_aligned sysW 0 0 24 8 4 ⟨3, rfl⟩ (by decide) rfl (by decide)).2.2.1,
   (allocate_layout_aligned sysW 0 0 24 8 4 ⟨3, rfl⟩ (by decide) rfl (by decide)).2.2.2⟩

/-- C7: in `allocate_layout` a non-zero status from
`pbuf_remove_header` is an `assert!` failure (modelled as the
`panicked` outcome, distinct from every recoverable error), and under
the padding scheme this branch is unreachable: for every input with a
power-of-two alignment the operation never panics. -/
theorem allocate_layout_never_panics (s : Sys) (layer ty size align : Nat)
    (_hpow : ∃ k, align = 2 ^ k) :
    (PbufUninit.allocate_layout s layer ty size align).1 ≠ RunResult.panicked := by
  by_cases hsz : 65535 < size + align
  · have h := (allocate_spec s layer ty (size + align)).1 hsz
    have he : (PbufUninit.allocate s layer ty (size + align)).1
        = .error .LengthLargerThanU16 := by rw [h]
    rw [allocate_layout_error s layer ty size align _ he]
    simp
  · push_neg at hsz
    by_cases ha0 : s.allocResults.headD 0 = 0
    · have he := (allocate_spec s layer ty (size + align)).2.2.1 hsz ha0
      rw [allocate_layout_error s layer ty size align _ he]
      simp
    · obtain ⟨h1, _, _⟩ :=
        allocate_layout_ok s layer ty size align _ hsz rfl ha0
      rw [h1]
      simp

theorem allocate_layout_never_panics_witness :
    (PbufUninit.allocate_layout sysW 0 0 24 8).1 ≠ RunResult.panicked :=
  allocate_layout_never_panics sysW 0 0 24 8 ⟨3, rfl⟩

/-- C10: whenever `allocate_layout` succeeds, the inner `allocate` call
validated `size + align ≤ 65535`, so `size` itself fits in 16 bits, the
cast `size as u16` (modelled `size % 65536`) is exact, and the shrink
primitive was passed exactly `size`. -/
theorem allocate_layout_size_exact (s : Sys) (layer ty size align : Nat)
    (u : PbufUninit)
    (h : (PbufUninit.allocate_layout s layer ty size align).1 = .ok u) :
    size ≤ 65535
    ∧ size % 65536 = size
    ∧ SysCall.reallocCall u.ptr.addr size
        ∈ (PbufUninit.allocate_layout s layer ty size align).2.trace := by
  by_cases hsz : 65535 < size + align
  · exfalso
    have hfull := (allocate_spec s layer ty (size + align)).1 hsz
    have he : (PbufUninit.allocate s layer ty (size + align)).1
        = .error .LengthLargerThanU16 := by rw [hfull]
    rw [allocate_layout_error s layer ty size align _ he] at h
    exact absurd h (by simp)
  · push_neg at hsz
    by_cases ha0 : s.allocResults.headD 0 = 0
    · exfalso
      have he := (allocate_spec s layer ty (size + align)).2.2.1 hsz ha0
      rw [allocate_layout_error s layer ty size align _ he] at h
      exact absurd h (by simp)
    · obtain ⟨h1, _, h3⟩ :=
        allocate_layout_ok s layer ty size align _ hsz rfl ha0
      rw [h1] at h
      have hu : u = ⟨⟨s.allocResults.headD 0⟩⟩ := by
        cases h; rfl
      have hm : size % 65536 = size := Nat.mod_eq_of_lt (by omega)
      refine ⟨by omega, hm, ?_⟩
      rw [h3, hu, ← hm]
      simp

theorem allocate_layout_size_exact_witness :
    (24 : Nat) ≤ 65535
    ∧ 24 % 65536 = 24
    ∧ SysCall.reallocCall 4 24 ∈ (PbufUninit.allocate_layout sysW 0 0 24 8).2.trace :=
  allocate_layout_size_exact sysW 0 0 24 8 ⟨⟨4⟩⟩ (by decide)

/-- Helper: reading back a region just filled with `v` gives all `v`. -/
theorem bytes_writeBytes (mem : Nat → Nat) (p v n : Nat) :
    (List.range n).map (fun i => writeBytes mem p v n (p + i)) = List.replicate n v := by
  refine List.eq_replicate_iff.2 ⟨by simp, ?_⟩
  intro b hb
  simp only [List.mem_map, List.mem_range] at hb
  obtain ⟨i, hi, rfl⟩ := hb
  have hc : p ≤ p + i ∧ p + i < p + n := ⟨Nat.le_add_right _ _, by omega⟩
  simp [writeBytes, hc]

/-- Helper: reading back a region just copied from a list gives back
that list. -/
theorem bytes_copyBytes (mem : Nat → Nat) (src : List Nat) (p : Nat) :
    (List.range src.length).map
      (fun i => copyBytes mem src p src.length (p + i)) = src := by
  apply List.ext_getElem (by simp)
  intro i h1 h2
  simp only [List.getElem_map, List.getElem_range]
  have hc : p ≤ p + i ∧ p + i < p + src.length := ⟨Nat.le_add_right _ _, by omega⟩
  simp only [copyBytes, if_pos hc, Nat.add_sub_cancel_left]
  exact List.getD_eq_getElem src 0 h2

/-- Helper: `zeroed` keeps the handle and the heap, and reading the
segment's byte range afterwards gives all zeros. -/
theorem zeroed_bytes (s : Sys) (u : PbufUninit) :
    (PbufUninit.zeroed s u).1 = ⟨u.ptr⟩
    ∧ (PbufUninit.zeroed s u).2.heap = s.heap
    ∧ ∀ pb : Pbuf, s.heap u.ptr.addr = pb →
        Pbuf.bytes (PbufUninit.zeroed s u).2 pb = List.replicate pb.len 0 := by
  refine ⟨rfl, rfl, ?_⟩
  intro pb hpb
  subst hpb
  exact bytes_writeBytes s.mem _ 0 _

/-- C4: for every requested length within the 16-bit range for which
the external allocation succeeds, `allocate` followed immediately by
`zeroed` yields a `PbufMut` over the allocated handle whose segment
length equals the requested length and whose bytes are all zero. -/
theorem allocate_zeroed (s : Sys) (layer ty n a : Nat) (hn : n ≤ 65535)
    (ha : s.allocResults.headD 0 = a) (ha0 : a ≠ 0) :
    (PbufUninit.allocate s layer ty n).1 = .ok ⟨⟨a⟩⟩
    ∧ (PbufUninit.zeroed (PbufUninit.allocate s layer ty n).2 ⟨⟨a⟩⟩).1
        = (⟨⟨a⟩⟩ : PbufMut)
    ∧ ((PbufUninit.zeroed (PbufUninit.allocate s layer ty n).2 ⟨⟨a⟩⟩).2.heap a).len = n
    ∧ Pbuf.bytes (PbufUninit.zeroed (PbufUninit.allocate s layer ty n).2 ⟨⟨a⟩⟩).2
        ((PbufUninit.zeroed (PbufUninit.allocate s layer ty n).2 ⟨⟨a⟩⟩).2.heap a)
      = List.replicate n 0 := by
  have hok := allocate_ok s layer ty n a hn ha ha0
  have h1 : (PbufUninit.allocate s layer ty n).1 = .ok ⟨⟨a⟩⟩ := by rw [hok]
  have hheap : (PbufUninit.allocate s layer ty n).2.heap a = ⟨n, a, 0, 1⟩ := by
    rw [hok]; simp
  have hz := zeroed_bytes (PbufUninit.allocate s layer ty n).2 ⟨⟨a⟩⟩
  refine ⟨h1, hz.1, ?_, ?_⟩
  · rw [hz.2.1, hheap]
  · have hb := hz.2.2 ⟨n, a, 0, 1⟩ hheap
    rw [hz.2.1, hheap]
    simpa using hb

theorem allocate_zeroed_witness :
    (PbufUninit.allocate sysW 0 0 64).1 = .ok ⟨⟨4⟩⟩
    ∧ Pbuf.bytes (PbufUninit.zeroed (PbufUninit.allocate sysW 0 0 64).2 ⟨⟨4⟩⟩).2
        ((PbufUninit.zeroed (PbufUninit.allocate sysW 0 0 64).2 ⟨⟨4⟩⟩).2.heap 4)
      = List.replicate 64 0 :=
  ⟨(allocate_zeroed sysW 0 0 64 4 (by decide) rfl (by decide)).1,
   (allocate_zeroed sysW 0 0 64 4 (by decide) rfl (by decide)).2.2.2⟩

/-- C5: `copied_from_slice` panics (fatal precondition failure, not a
recoverable error, no truncation or padding: the world is untouched)
whenever the source length differs from the allocation's length; with
equal lengths it copies the source into the payload and yields a
`PbufMut` over the same handle whose bytes equal the source. -/
theorem copied_from_slice_spec (s : Sys) (u : PbufUninit) (slice : List Nat) :
    (slice.length ≠ PbufUninit.len s u →
        PbufUninit.copied_from_slice s u slice = (.panicked, s))
    ∧ (slice.length = PbufUninit.len s u →
        (PbufUninit.copied_from_slice s u slice).1 = .ok ⟨u.ptr⟩
        ∧ Pbuf.bytes (PbufUninit.copied_from_slice s u slice).2 (PbufPtr.get u.ptr s)
            = slice) := by
  constructor
  · intro h
    simp [PbufUninit.copied_from_slice, h]
  · intro h
    refine ⟨by simp [PbufUninit.copied_from_slice, h], ?_⟩
    simp only [PbufUninit.copied_from_slice, if_pos h]
    simp only [Pbuf.bytes, PbufUninit.len, PbufPtr.get] at h ⊢
    rw [← h]
    exact bytes_copyBytes s.mem slice (s.heap u.ptr.addr).payload

theorem copied_from_slice_spec_witness :
    PbufUninit.copied_from_slice sysW ⟨⟨4⟩⟩ [1, 2, 3] = (.panicked, sysW)
    ∧ Pbuf.bytes (PbufUninit.copied_from_slice sysW ⟨⟨4⟩⟩ [1, 2, 3, 4]).2
        (PbufPtr.get ⟨4⟩ sysW) = [1, 2, 3, 4] :=
  ⟨(copied_from_slice_spec sysW ⟨⟨4⟩⟩ [1, 2, 3]).1 (by decide),
   ((copied_from_slice_spec sysW ⟨⟨4⟩⟩ [1, 2, 3, 4]).2 (by decide)).2⟩

end EspPbuf
